import Mathlib

/-!
Verification of the PumpSwap SDK quote / pool-selection core.

The definitions below are a shallow embedding of the TypeScript source:

* `PumpSwapSDK.calculateBuyTokenAmount`, `PumpSwapSDK.calculateSellSolAmount`,
  `PumpSwapSDK.calculateWithSlippageBuy`, `PumpSwapSDK.calculateWithSlippageSell`
  operate on JavaScript `bigint` values; these are modelled as `ℤ` and `bigint`
  division (truncation toward zero) as `Int.tdiv`.
* `PoolService.getPriceAndLiquidity`, `PoolService.getPoolsWithPrices`,
  `PoolService.getBestPool`, `PoolService.getPrice` are `async` methods whose
  failure channel (thrown / rejected promises) is modelled with `Except String`;
  the three network queries feeding discovery are passed in as already-resolved
  `Except String (List Pool)` values.  JavaScript floating-point numbers are
  modelled as exact rationals `ℚ`; divisions performed on JS numbers are exact
  rational divisions in the model.
-/

namespace PumpSwap

/-- `DEFAULTS.LAMPORTS_PER_SOL` from `config` (also `LAMPORTS_PER_SOL` of web3.js). -/
def LAMPORTS_PER_SOL : ℕ := 1000000000

/-- `DEFAULTS.DECIMALS` from `config`. -/
def DECIMALS : ℕ := 6

/-- `PumpSwapSDK.calculateBuyTokenAmount`, abstracted over the selected pool's
reserves: `k = baseReserve * quoteReserve; newQuoteReserve = quoteReserve +
solAmount; newBaseReserve = k / newQuoteReserve; return baseReserve -
newBaseReserve` in `bigint` arithmetic. -/
def calculateBuyTokenAmount (baseReserve quoteReserve solAmount : ℤ) : ℤ :=
  let k := baseReserve * quoteReserve
  let newQuoteReserve := quoteReserve + solAmount
  let newBaseReserve := Int.tdiv k newQuoteReserve
  baseReserve - newBaseReserve

/-- `PumpSwapSDK.calculateSellSolAmount`, abstracted over the selected pool's
reserves: `k = baseReserve * quoteReserve; newBaseReserve = baseReserve +
tokenAmount; newQuoteReserve = k / newBaseReserve; return quoteReserve -
newQuoteReserve` in `bigint` arithmetic. -/
def calculateSellSolAmount (baseReserve quoteReserve tokenAmount : ℤ) : ℤ :=
  let k := baseReserve * quoteReserve
  let newBaseReserve := baseReserve + tokenAmount
  let newQuoteReserve := Int.tdiv k newBaseReserve
  quoteReserve - newQuoteReserve

/-- `PumpSwapSDK.calculateWithSlippageBuy`:
`(amount * (10000n - basisPoints)) / 10000n`. -/
def calculateWithSlippageBuy (amount basisPoints : ℤ) : ℤ :=
  Int.tdiv (amount * (10000 - basisPoints)) 10000

/-- `PumpSwapSDK.calculateWithSlippageSell`:
`(amount * (10000n - basisPoints)) / 10000n`. -/
def calculateWithSlippageSell (amount basisPoints : ℤ) : ℤ :=
  Int.tdiv (amount * (10000 - basisPoints)) 10000

/-! ### Data model of the pool-discovery side (`PoolService`) -/

/-- Decoded on-chain pool account data (`poolData` from
`program.coder.accounts.decode('pool', data)`): the reserve fields the core
reads, `bigint` modelled as `ℤ`. -/
structure PoolData where
  baseReserve : ℤ
  quoteReserve : ℤ
deriving Repr, DecidableEq

/-- The `Pool` record assembled by the three discovery queries:
`{address, is_native_base, poolData}`.  The opaque account address is modelled
as a natural number. -/
structure Pool where
  address : ℕ
  is_native_base : Bool
  poolData : PoolData
deriving Repr, DecidableEq

/-- Normalized reserve figures attached by `getPriceAndLiquidity`. -/
structure Reserves where
  native : ℚ
  token : ℚ
deriving Repr, DecidableEq

/-- The `PoolWithPrice` record: a pool spread together with `price` and
`reserves` (`{...pool, price, reserves}`). -/
structure PoolWithPrice where
  address : ℕ
  is_native_base : Bool
  poolData : PoolData
  price : ℚ
  reserves : Reserves
deriving Repr, DecidableEq

/-- The enrichment performed on the success path of
`PoolService.getPriceAndLiquidity`:
`price = Number(quoteReserve) / Number(baseReserve)`,
`reserves.native = Number(quoteReserve) / LAMPORTS_PER_SOL`,
`reserves.token = Number(baseReserve) / Math.pow(10, DEFAULTS.DECIMALS)`,
JS number division modelled as exact rational division. -/
def enrichPool (pool : Pool) : PoolWithPrice :=
  { address := pool.address
    is_native_base := pool.is_native_base
    poolData := pool.poolData
    price := (pool.poolData.quoteReserve : ℚ) / (pool.poolData.baseReserve : ℚ)
    reserves :=
      { native := (pool.poolData.quoteReserve : ℚ) / (LAMPORTS_PER_SOL : ℚ)
        token := (pool.poolData.baseReserve : ℚ) / ((10 : ℚ) ^ DECIMALS) } }

/-- `PoolService.getPriceAndLiquidity`: throws `'Invalid pool reserves'` when
`!baseReserve || !quoteReserve || baseReserve === 0n || quoteReserve === 0n`
(for `bigint` reserves this is exactly "a reserve equals zero"), otherwise
returns the enriched pool. -/
def getPriceAndLiquidity (pool : Pool) : Except String PoolWithPrice :=
  if pool.poolData.baseReserve = 0 ∨ pool.poolData.quoteReserve = 0 then
    .error "Invalid pool reserves"
  else
    .ok (enrichPool pool)

/-- The fan-in `Promise.all(allPools.map((pool) => this.getPriceAndLiquidity
(pool)))`: per-pool enrichment with fail-fast rejection (the first rejection
rejects the whole combination). -/
def mapPricing : List Pool → Except String (List PoolWithPrice)
  | [] => .ok []
  | p :: ps =>
    match getPriceAndLiquidity p, mapPricing ps with
    | .error e, _ => .error e
    | .ok _, .error e => .error e
    | .ok q, .ok qs => .ok (q :: qs)

/-- `PoolService.getPoolsWithPrices`, abstracted over the already-resolved
results of the three discovery queries (`getPoolsWithBaseMint`,
`getPoolsWithQuoteMint`, `getPoolsWithBaseMintQuoteWSOL`), each either a list
of decoded pools or a query failure.  The fail-fast `Promise.all` fan-ins and
the rethrowing `catch` are modelled by `Except` short-circuiting; the enriched
pools are filtered by `pool.price > 0`. -/
def getPoolsWithPrices (basePools quotePools wsolPools : Except String (List Pool)) :
    Except String (List PoolWithPrice) := do
  let l1 ← basePools
  let l2 ← quotePools
  let l3 ← wsolPools
  let allPools := l1 ++ l2 ++ l3
  let poolsWithPrices ← mapPricing allPools
  return poolsWithPrices.filter (fun pool => decide (0 < pool.price))

/-- The reduction step of `PoolService.getBestPool`:
`current.reserves.native > best.reserves.native ? current : best`. -/
def betterPool (best current : PoolWithPrice) : PoolWithPrice :=
  if best.reserves.native < current.reserves.native then current else best

/-- The selection logic of `PoolService.getBestPool` on the discovered list:
`null` when `pools.length === 0`, otherwise `pools.reduce(...)` (JavaScript
`reduce` without an initial value folds over the tail starting from the head). -/
def bestPoolOf (pools : List PoolWithPrice) : Option PoolWithPrice :=
  match pools with
  | [] => none
  | h :: t => some (t.foldl betterPool h)

/-- `PoolService.getBestPool`: discovery followed by selection, query errors
propagated (the `catch` rethrows). -/
def getBestPool (basePools quotePools wsolPools : Except String (List Pool)) :
    Except String (Option PoolWithPrice) :=
  (getPoolsWithPrices basePools quotePools wsolPools).map bestPoolOf

/-- The result conversion in `PoolService.getPrice`: `bestPool?.price || null`
maps a missing pool, and also a (falsy) zero price, to `null`. -/
def coalescePrice (best : Option PoolWithPrice) : Option ℚ :=
  match best with
  | none => none
  | some p => if p.price = 0 then none else some p.price

/-- `PoolService.getPrice`: best pool's price with `|| null` coalescing, query
errors propagated. -/
def getPrice (basePools quotePools wsolPools : Except String (List Pool)) :
    Except String (Option ℚ) :=
  (getBestPool basePools quotePools wsolPools).map coalescePrice

/-- Modelled from the spec: the price claim C5 prescribes — `quoteReserve /
baseReserve` computed *after* converting both reserves out of raw integer
units (native side divided by `LAMPORTS_PER_SOL`, token side by
`10^DECIMALS`). -/
def specNormalizedPrice (pool : Pool) : ℚ :=
  ((pool.poolData.quoteReserve : ℚ) / (LAMPORTS_PER_SOL : ℚ)) /
    ((pool.poolData.baseReserve : ℚ) / ((10 : ℚ) ^ DECIMALS))

/-! ### Helper lemmas about truncating division on the non-negative range -/

/-- On natural-number operands, `bigint` truncating division agrees with
natural-number (floor) division. -/
theorem tdiv_natCast (m n : ℕ) : Int.tdiv (m : ℤ) (n : ℤ) = ((m / n : ℕ) : ℤ) := rfl

theorem calculateBuyTokenAmount_natCast (B Q qin : ℕ) :
    calculateBuyTokenAmount (B : ℤ) (Q : ℤ) (qin : ℤ) =
      (B : ℤ) - ((B * Q / (Q + qin) : ℕ) : ℤ) := by
  show (B : ℤ) - Int.tdiv ((B : ℤ) * (Q : ℤ)) ((Q : ℤ) + (qin : ℤ)) = _
  rw [show ((B : ℤ) * (Q : ℤ)) = ((B * Q : ℕ) : ℤ) by push_cast; ring,
    show ((Q : ℤ) + (qin : ℤ)) = ((Q + qin : ℕ) : ℤ) by push_cast; ring, tdiv_natCast]

theorem calculateSellSolAmount_natCast (B Q bin : ℕ) :
    calculateSellSolAmount (B : ℤ) (Q : ℤ) (bin : ℤ) =
      (Q : ℤ) - ((B * Q / (B + bin) : ℕ) : ℤ) := by
  show (Q : ℤ) - Int.tdiv ((B : ℤ) * (Q : ℤ)) ((B : ℤ) + (bin : ℤ)) = _
  rw [show ((B : ℤ) * (Q : ℤ)) = ((B * Q : ℕ) : ℤ) by push_cast; ring,
    show ((B : ℤ) + (bin : ℤ)) = ((B + bin : ℕ) : ℤ) by push_cast; ring, tdiv_natCast]

theorem calculateWithSlippageBuy_natCast (x bps : ℕ) (h : bps ≤ 10000) :
    calculateWithSlippageBuy (x : ℤ) (bps : ℤ) =
      ((x * (10000 - bps) / 10000 : ℕ) : ℤ) := by
  unfold calculateWithSlippageBuy
  have h10000 : ((10000 : ℕ) : ℤ) = (10000 : ℤ) := by norm_num
  have hsub : ((10000 : ℤ) - (bps : ℤ)) = (((10000 - bps : ℕ) : ℤ)) := by
    push_cast [Nat.cast_sub h]
    ring
  rw [hsub, ← Nat.cast_mul, ← h10000, tdiv_natCast]

/-- Definitional reduction of `getPoolsWithPrices` when all three queries
succeed. -/
theorem getPoolsWithPrices_def (l1 l2 l3 : List Pool) :
    getPoolsWithPrices (.ok l1) (.ok l2) (.ok l3) =
      Except.bind (mapPricing (l1 ++ l2 ++ l3))
        (fun v => .ok (v.filter (fun q => decide (0 < q.price)))) := rfl

/-! ### C1: the constant-product quote formulas -/

/-- **C1.** For strictly positive integer reserves and non-negative input, the
buy quote equals `baseReserve - floor(baseReserve*quoteReserve /
(quoteReserve+quoteAmountIn))` and the sell quote equals `quoteReserve -
floor(baseReserve*quoteReserve / (baseReserve+baseAmountIn))`, in exact integer
arithmetic with truncating division (which coincides with floor division on this
domain), `k` being recomputed from the current reserves. -/
theorem quote_formulas (B Q qin bin : ℤ) (hB : 0 < B) (hQ : 0 < Q)
    (hqin : 0 ≤ qin) (hbin : 0 ≤ bin) :
    calculateBuyTokenAmount B Q qin = B - (B * Q) / (Q + qin) ∧
    calculateSellSolAmount B Q bin = Q - (B * Q) / (B + bin) := by
  have hk : 0 ≤ B * Q := le_of_lt (mul_pos hB hQ)
  constructor
  · have hd : 0 ≤ Q + qin := le_trans (le_of_lt hQ) (le_add_of_nonneg_right hqin)
    show B - Int.tdiv (B * Q) (Q + qin) = _
    rw [Int.tdiv_eq_ediv hk hd]
  · have hd : 0 ≤ B + bin := le_trans (le_of_lt hB) (le_add_of_nonneg_right hbin)
    show Q - Int.tdiv (B * Q) (B + bin) = _
    rw [Int.tdiv_eq_ediv hk hd]

/-- Witness for `quote_formulas` at the end-to-end scenario of the spec:
`baseReserve = 500_000_000`, `quoteReserve = 50_000_000_000`,
`quoteAmountIn = 1_000_000_000`, `baseAmountIn = 1_000_000`. -/
theorem quote_formulas_witness :
    calculateBuyTokenAmount 500000000 50000000000 1000000000 =
      500000000 - (500000000 * 50000000000) / (50000000000 + 1000000000) ∧
    calculateSellSolAmount 500000000 50000000000 1000000 =
      50000000000 - (500000000 * 50000000000) / (500000000 + 1000000) := by
  exact quote_formulas 500000000 50000000000 1000000000 1000000
    (by norm_num) (by norm_num) (by norm_num) (by norm_num)

/-! ### C2: slippage adjustment -/

/-- **C2.** For every non-negative integer `idealAmount` and every
`bps ∈ [0, 10000]`, the slippage adjustment (both directions use the identical
formula) equals `floor(idealAmount * (10000 - bps) / 10000)`; consequently
`applySlippage(x, 0) = x`, `applySlippage(x, 10000) = 0`, and for fixed
`idealAmount` the result is non-increasing as `bps` increases. -/
theorem slippage_spec (x bps : ℕ) (hbps : bps ≤ 10000) :
    calculateWithSlippageBuy (x : ℤ) (bps : ℤ) = ((x * (10000 - bps) / 10000 : ℕ) : ℤ) ∧
    calculateWithSlippageSell (x : ℤ) (bps : ℤ) = calculateWithSlippageBuy (x : ℤ) (bps : ℤ) ∧
    calculateWithSlippageBuy (x : ℤ) 0 = (x : ℤ) ∧
    calculateWithSlippageBuy (x : ℤ) 10000 = 0 ∧
    (∀ bps2 : ℕ, bps ≤ bps2 → bps2 ≤ 10000 →
      calculateWithSlippageBuy (x : ℤ) (bps2 : ℤ) ≤ calculateWithSlippageBuy (x : ℤ) (bps : ℤ)) := by
  refine ⟨calculateWithSlippageBuy_natCast x bps hbps, rfl, ?_, ?_, ?_⟩
  · have h := calculateWithSlippageBuy_natCast x 0 (by norm_num)
    simpa using h
  · have h := calculateWithSlippageBuy_natCast x 10000 (by norm_num)
    simpa using h
  · intro bps2 h1 h2
    rw [calculateWithSlippageBuy_natCast x bps hbps, calculateWithSlippageBuy_natCast x bps2 h2]
    have hmono : x * (10000 - bps2) / 10000 ≤ x * (10000 - bps) / 10000 := by
      apply Nat.div_le_div_right
      exact Nat.mul_le_mul_left x (Nat.sub_le_sub_left h1 10000)
    exact_mod_cast hmono

/-- Witness for `slippage_spec` at `idealAmount = 12345`, `bps = 300`,
second tolerance `bps2 = 500`. -/
theorem slippage_spec_witness :
    calculateWithSlippageBuy (12345 : ℤ) ((300 : ℕ) : ℤ) =
      ((12345 * (10000 - 300) / 10000 : ℕ) : ℤ) ∧
    calculateWithSlippageBuy (12345 : ℤ) ((500 : ℕ) : ℤ) ≤
      calculateWithSlippageBuy (12345 : ℤ) ((300 : ℕ) : ℤ) := by
  obtain ⟨h1, _, _, _, h5⟩ := slippage_spec 12345 300 (by norm_num)
  exact ⟨h1, h5 500 (by norm_num) (by norm_num)⟩

/-! ### The selector is a stable argmax -/

/-- Folding `betterPool` over `t` starting from `a` yields an element that
splits `a :: t` into a strict-smaller prefix and a no-larger suffix: it is the
first element attaining the maximum native-side reserve. -/
theorem foldl_betterPool_spec (t : List PoolWithPrice) (a : PoolWithPrice) :
    ∃ l1 l2, a :: t = l1 ++ (t.foldl betterPool a) :: l2 ∧
      (∀ x ∈ l1, x.reserves.native < (t.foldl betterPool a).reserves.native) ∧
      (∀ x ∈ l2, x.reserves.native ≤ (t.foldl betterPool a).reserves.native) := by
  induction t generalizing a with
  | nil => exact ⟨[], [], rfl, by simp, by simp⟩
  | cons b t ih =>
    simp only [List.foldl_cons]
    by_cases h : a.reserves.native < b.reserves.native
    · rw [show betterPool a b = b from by unfold betterPool; rw [if_pos h]]
      obtain ⟨l1, l2, heq, h1, h2⟩ := ih b
      have hble : b.reserves.native ≤ (t.foldl betterPool b).reserves.native := by
        cases l1 with
        | nil =>
          rw [List.nil_append] at heq
          exact le_of_eq (congrArg (fun p => p.reserves.native) (List.cons.inj heq).1)
        | cons c l1' =>
          rw [List.cons_append] at heq
          have hlt := h1 c (List.mem_cons_self c l1')
          rw [← (List.cons.inj heq).1] at hlt
          exact le_of_lt hlt
      refine ⟨a :: l1, l2, ?_, ?_, h2⟩
      · rw [List.cons_append, ← heq]
      · intro x hx
        rcases List.mem_cons.mp hx with rfl | hxl
        · exact lt_of_lt_of_le h hble
        · exact h1 x hxl
    · rw [show betterPool a b = a from by unfold betterPool; rw [if_neg h]]
      obtain ⟨l1, l2, heq, h1, h2⟩ := ih a
      cases l1 with
      | nil =>
        rw [List.nil_append] at heq
        have ha := (List.cons.inj heq).1
        have ht := (List.cons.inj heq).2
        refine ⟨[], b :: t, by rw [List.nil_append, ← ha], by simp, ?_⟩
        intro x hx
        rcases List.mem_cons.mp hx with rfl | hxt
        · rw [← ha]; exact le_of_not_lt h
        · exact h2 x (ht ▸ hxt)
      | cons c l1' =>
        rw [List.cons_append] at heq
        have hac := (List.cons.inj heq).1
        have ht := (List.cons.inj heq).2
        have halt : a.reserves.native < (t.foldl betterPool a).reserves.native := by
          have hlt := h1 c (List.mem_cons_self c l1')
          rw [← hac] at hlt
          exact hlt
        refine ⟨a :: b :: l1', l2, ?_, ?_, h2⟩
        · rw [List.cons_append, List.cons_append, ← ht]
        · intro x hx
          rcases List.mem_cons.mp hx with rfl | hx'
          · exact halt
          rcases List.mem_cons.mp hx' with rfl | hxl
          · exact lt_of_le_of_lt (le_of_not_lt h) halt
          · exact h1 x (List.mem_cons_of_mem c hxl)

/-- A selected best pool is a member of the input list. -/
theorem bestPoolOf_mem {pools : List PoolWithPrice} {p : PoolWithPrice}
    (h : bestPoolOf pools = some p) : p ∈ pools := by
  cases pools with
  | nil => simp [bestPoolOf] at h
  | cons a t =>
    obtain ⟨l1, l2, heq, -, -⟩ := foldl_betterPool_spec t a
    have hp : p = t.foldl betterPool a := by
      simpa [bestPoolOf] using h.symm
    rw [hp, heq]
    exact List.mem_append_right l1 (List.mem_cons_self _ l2)

/-! ### C3: pool-selector correctness -/

/-- **C3.** For a non-empty list of priced pools the selector returns the pool
with the greatest normalized native-side reserve, ties resolved in favour of
the first-encountered pool (the result splits the list into a strictly-smaller
prefix and a no-larger suffix); for the empty list it returns `none`, not an
error. -/
theorem bestPool_selects (pools : List PoolWithPrice) :
    (bestPoolOf pools = none ↔ pools = []) ∧
    (pools ≠ [] → ∃ p l1 l2, bestPoolOf pools = some p ∧ pools = l1 ++ p :: l2 ∧
      (∀ x ∈ l1, x.reserves.native < p.reserves.native) ∧
      (∀ x ∈ l2, x.reserves.native ≤ p.reserves.native)) := by
  constructor
  · cases pools <;> simp [bestPoolOf]
  · intro hne
    cases pools with
    | nil => exact absurd rfl hne
    | cons a t =>
      obtain ⟨l1, l2, heq, h1, h2⟩ := foldl_betterPool_spec t a
      exact ⟨t.foldl betterPool a, l1, l2, rfl, heq, h1, h2⟩

/-- Witness for `bestPool_selects` on the spec's selector-determinism example:
native reserves `[5, 12, 3]`; the selector picks the pool with native reserve
`12`. -/
theorem bestPool_selects_witness :
    (bestPoolOf [⟨1, false, ⟨1, 1⟩, 1, ⟨5, 1⟩⟩, ⟨2, false, ⟨1, 1⟩, 1, ⟨12, 1⟩⟩,
        ⟨3, false, ⟨1, 1⟩, 1, ⟨3, 1⟩⟩] = none ↔
      ([⟨1, false, ⟨1, 1⟩, 1, ⟨5, 1⟩⟩, ⟨2, false, ⟨1, 1⟩, 1, ⟨12, 1⟩⟩,
        ⟨3, false, ⟨1, 1⟩, 1, ⟨3, 1⟩⟩] : List PoolWithPrice) = []) ∧
    (∃ p l1 l2,
      bestPoolOf [⟨1, false, ⟨1, 1⟩, 1, ⟨5, 1⟩⟩, ⟨2, false, ⟨1, 1⟩, 1, ⟨12, 1⟩⟩,
        ⟨3, false, ⟨1, 1⟩, 1, ⟨3, 1⟩⟩] = some p ∧
      [⟨1, false, ⟨1, 1⟩, 1, ⟨5, 1⟩⟩, ⟨2, false, ⟨1, 1⟩, 1, ⟨12, 1⟩⟩,
        ⟨3, false, ⟨1, 1⟩, 1, ⟨3, 1⟩⟩] = l1 ++ p :: l2 ∧
      (∀ x ∈ l1, x.reserves.native < p.reserves.native) ∧
      (∀ x ∈ l2, x.reserves.native ≤ p.reserves.native)) ∧
    bestPoolOf [⟨1, false, ⟨1, 1⟩, 1, ⟨5, 1⟩⟩, ⟨2, false, ⟨1, 1⟩, 1, ⟨12, 1⟩⟩,
        ⟨3, false, ⟨1, 1⟩, 1, ⟨3, 1⟩⟩] = some ⟨2, false, ⟨1, 1⟩, 1, ⟨12, 1⟩⟩ := by
  have h := bestPool_selects [⟨1, false, ⟨1, 1⟩, 1, ⟨5, 1⟩⟩, ⟨2, false, ⟨1, 1⟩, 1, ⟨12, 1⟩⟩,
    ⟨3, false, ⟨1, 1⟩, 1, ⟨3, 1⟩⟩]
  exact ⟨h.1, h.2 (by simp), by decide⟩

/-! ### Helper lemmas about the discovery pipeline -/

/-- Inversion for the success path of `getPriceAndLiquidity`. -/
theorem getPriceAndLiquidity_ok_inv {p : Pool} {q : PoolWithPrice}
    (h : getPriceAndLiquidity p = .ok q) :
    ¬(p.poolData.baseReserve = 0 ∨ p.poolData.quoteReserve = 0) ∧ q = enrichPool p := by
  unfold getPriceAndLiquidity at h
  by_cases hc : p.poolData.baseReserve = 0 ∨ p.poolData.quoteReserve = 0
  · rw [if_pos hc] at h; exact absurd h (by simp)
  · rw [if_neg hc] at h
    exact ⟨hc, (Except.ok.inj h).symm⟩

/-- If every candidate has non-zero reserves, the fan-in succeeds with the
enriched pools in input order. -/
theorem mapPricing_ok_of_valid :
    ∀ l : List Pool, (∀ p ∈ l, ¬(p.poolData.baseReserve = 0 ∨ p.poolData.quoteReserve = 0)) →
      mapPricing l = .ok (l.map enrichPool)
  | [], _ => rfl
  | p :: ps, h => by
    have hp : getPriceAndLiquidity p = .ok (enrichPool p) := by
      unfold getPriceAndLiquidity
      rw [if_neg (h p (List.mem_cons_self p ps))]
    have hps := mapPricing_ok_of_valid ps (fun x hx => h x (List.mem_cons_of_mem p hx))
    unfold mapPricing
    rw [hp, hps]
    rfl

/-- A degenerate candidate anywhere in the list rejects the whole fan-in. -/
theorem mapPricing_error_of_degenerate :
    ∀ l : List Pool, (∃ p ∈ l, p.poolData.baseReserve = 0 ∨ p.poolData.quoteReserve = 0) →
      ∃ e, mapPricing l = .error e
  | [], h => absurd h (by simp)
  | p :: ps, h => by
    unfold mapPricing
    by_cases hp : p.poolData.baseReserve = 0 ∨ p.poolData.quoteReserve = 0
    · refine ⟨"Invalid pool reserves", ?_⟩
      have : getPriceAndLiquidity p = .error "Invalid pool reserves" := by
        unfold getPriceAndLiquidity; rw [if_pos hp]
      rw [this]
    · obtain ⟨x, hx, hxdeg⟩ := h
      rcases List.mem_cons.mp hx with rfl | hx'
      · exact absurd hxdeg hp
      · obtain ⟨e, he⟩ := mapPricing_error_of_degenerate ps ⟨x, hx', hxdeg⟩
        refine ⟨e, ?_⟩
        have hpok : getPriceAndLiquidity p = .ok (enrichPool p) := by
          unfold getPriceAndLiquidity; rw [if_neg hp]
        rw [hpok, he]

/-- Every pool produced by a successful fan-in is the enrichment of some
candidate. -/
theorem mapPricing_ok_members :
    ∀ (l : List Pool) (out : List PoolWithPrice), mapPricing l = .ok out →
      ∀ q ∈ out, ∃ p ∈ l, getPriceAndLiquidity p = .ok q
  | [], out, h => by
    unfold mapPricing at h
    rw [← Except.ok.inj h]
    intro q hq
    exact absurd hq (by simp)
  | p :: ps, out, h => by
    unfold mapPricing at h
    cases hp : getPriceAndLiquidity p with
    | error e => rw [hp] at h; exact absurd h (by simp)
    | ok q0 =>
      rw [hp] at h
      cases hps : mapPricing ps with
      | error e => rw [hps] at h; exact absurd h (by simp)
      | ok qs =>
        rw [hps] at h
        rw [← Except.ok.inj h]
        intro q hq
        rcases List.mem_cons.mp hq with rfl | hq'
        · exact ⟨p, List.mem_cons_self p ps, hp⟩
        · obtain ⟨x, hx, hxok⟩ := mapPricing_ok_members ps qs hps q hq'
          exact ⟨x, List.mem_cons_of_mem p hx, hxok⟩

/-- Inversion for the success path of `getPoolsWithPrices`. -/
theorem getPoolsWithPrices_ok_inv {r1 r2 r3 : Except String (List Pool)}
    {l : List PoolWithPrice} (h : getPoolsWithPrices r1 r2 r3 = .ok l) :
    ∃ l1 l2 l3 out, r1 = .ok l1 ∧ r2 = .ok l2 ∧ r3 = .ok l3 ∧
      mapPricing (l1 ++ l2 ++ l3) = .ok out ∧
      l = out.filter (fun q => decide (0 < q.price)) := by
  cases r1 with
  | error e => exact absurd h (by simp [getPoolsWithPrices, Bind.bind, Except.bind])
  | ok l1 =>
  cases r2 with
  | error e => exact absurd h (by simp [getPoolsWithPrices, Bind.bind, Except.bind])
  | ok l2 =>
  cases r3 with
  | error e => exact absurd h (by simp [getPoolsWithPrices, Bind.bind, Except.bind])
  | ok l3 =>
  cases hm : mapPricing (l1 ++ l2 ++ l3) with
  | error e =>
    rw [getPoolsWithPrices_def, hm] at h
    exact absurd h (by simp [Except.bind])
  | ok out =>
    refine ⟨l1, l2, l3, out, rfl, rfl, rfl, hm, ?_⟩
    rw [getPoolsWithPrices_def, hm] at h
    exact (Except.ok.inj h).symm

/-- Every pool in a successful discovery result has a strictly positive price. -/
theorem getPoolsWithPrices_ok_price_pos {r1 r2 r3 : Except String (List Pool)}
    {l : List PoolWithPrice} (h : getPoolsWithPrices r1 r2 r3 = .ok l) :
    ∀ q ∈ l, 0 < q.price := by
  obtain ⟨l1, l2, l3, out, -, -, -, -, hfil⟩ := getPoolsWithPrices_ok_inv h
  intro q hq
  rw [hfil] at hq
  have := List.of_mem_filter hq
  simpa using this

/-- Valid candidates (both reserves positive) all survive the `price > 0`
filter. -/
theorem filter_pos_of_valid (l : List Pool)
    (hval : ∀ p ∈ l, 0 < p.poolData.baseReserve ∧ 0 < p.poolData.quoteReserve) :
    (l.map enrichPool).filter (fun q => decide (0 < q.price)) = l.map enrichPool := by
  rw [List.filter_eq_self]
  intro q hq
  obtain ⟨p, hp, rfl⟩ := List.mem_map.mp hq
  have hpos := hval p hp
  have : (0 : ℚ) < (p.poolData.quoteReserve : ℚ) / (p.poolData.baseReserve : ℚ) :=
    div_pos (by exact_mod_cast hpos.2) (by exact_mod_cast hpos.1)
  simpa [enrichPool] using this

/-- Discovery on all-valid candidates succeeds with the enriched
concatenation. -/
theorem getPoolsWithPrices_of_valid (l1 l2 l3 : List Pool)
    (hval : ∀ p ∈ l1 ++ l2 ++ l3,
      0 < p.poolData.baseReserve ∧ 0 < p.poolData.quoteReserve) :
    getPoolsWithPrices (.ok l1) (.ok l2) (.ok l3) =
      .ok ((l1 ++ l2 ++ l3).map enrichPool) := by
  have hmap : mapPricing (l1 ++ l2 ++ l3) = .ok ((l1 ++ l2 ++ l3).map enrichPool) :=
    mapPricing_ok_of_valid _ (fun p hp => by
      have := hval p hp
      push_neg
      exact ⟨this.1.ne', this.2.ne'⟩)
  rw [getPoolsWithPrices_def, hmap]
  show Except.ok _ = _
  rw [filter_pos_of_valid _ hval]

/-! ### C6: error propagation vs the empty result -/

/-- **C6.** If any of the three underlying discovery queries fails, the whole
discovery fails and the caller sees an error (never a partial or empty list);
conversely, when every query completes with zero matches, discovery returns
the empty list and no error. -/
theorem discovery_error_vs_empty :
    (∀ r1 r2 r3 : Except String (List Pool),
      (r1.isOk = false ∨ r2.isOk = false ∨ r3.isOk = false) →
        (getPoolsWithPrices r1 r2 r3).isOk = false) ∧
    getPoolsWithPrices (.ok []) (.ok []) (.ok []) = .ok [] := by
  constructor
  · rintro r1 r2 r3 (h | h | h)
    · cases r1 with
      | error e => rfl
      | ok l1 => simp [Except.isOk, Except.toBool] at h
    · cases r2 with
      | error e => cases r1 with | error e1 => rfl | ok l1 => rfl
      | ok l2 => simp [Except.isOk, Except.toBool] at h
    · cases r3 with
      | error e =>
        cases r1 with
        | error e1 => rfl
        | ok l1 => cases r2 with | error e2 => rfl | ok l2 => rfl
      | ok l3 => simp [Except.isOk, Except.toBool] at h
  · rfl

/-- Witness for `discovery_error_vs_empty`: a failing first query propagates
the failure; three empty query results give the empty list. -/
theorem discovery_error_vs_empty_witness :
    (getPoolsWithPrices (.error "query failed") (.ok []) (.ok [])).isOk = false ∧
    getPoolsWithPrices (.ok []) (.ok []) (.ok []) = .ok ([] : List PoolWithPrice) := by
  have h := discovery_error_vs_empty
  exact ⟨h.1 (.error "query failed") (.ok []) (.ok []) (Or.inl rfl), h.2⟩

/-! ### C9: un-deduplicated, order-preserving concatenation -/

/-- **C9.** The discovery result is the order-preserving concatenation of the
three lookup results (token-as-base, then token-as-quote, then
token-as-base-with-native-quote), each candidate enriched in place; duplicate
pool addresses across the three sets are passed through — no deduplication by
address is performed.  (Stated for candidates with positive reserves, which is
what the on-chain `u64` reserve fields of a live pool decode to; such pools
all survive the `price > 0` filter.) -/
theorem discovery_concat_no_dedup (l1 l2 l3 : List Pool)
    (hval : ∀ p ∈ l1 ++ l2 ++ l3,
      0 < p.poolData.baseReserve ∧ 0 < p.poolData.quoteReserve) :
    getPoolsWithPrices (.ok l1) (.ok l2) (.ok l3) =
      .ok ((l1 ++ l2 ++ l3).map enrichPool) ∧
    ((l1 ++ l2 ++ l3).map enrichPool).map PoolWithPrice.address =
      l1.map Pool.address ++ l2.map Pool.address ++ l3.map Pool.address ∧
    ((l1 ++ l2 ++ l3).map enrichPool).length = l1.length + l2.length + l3.length := by
  refine ⟨getPoolsWithPrices_of_valid l1 l2 l3 hval, ?_, ?_⟩
  · simp only [List.map_map, List.map_append]
    rw [show PoolWithPrice.address ∘ enrichPool = Pool.address from funext fun p => rfl]
  · simp only [List.length_map, List.length_append]

/-- Witness for `discovery_concat_no_dedup`: the same pool address appears in
the first and the third query result and survives twice in the output. -/
theorem discovery_concat_no_dedup_witness :
    getPoolsWithPrices (.ok [⟨5, false, ⟨2, 3⟩⟩]) (.ok []) (.ok [⟨5, false, ⟨2, 3⟩⟩]) =
      .ok ((([⟨5, false, ⟨2, 3⟩⟩] ++ [] ++ [⟨5, false, ⟨2, 3⟩⟩] : List Pool)).map enrichPool) ∧
    ((([⟨5, false, ⟨2, 3⟩⟩] ++ [] ++ [⟨5, false, ⟨2, 3⟩⟩] : List Pool)).map enrichPool).map
        PoolWithPrice.address =
      ([⟨5, false, ⟨2, 3⟩⟩] : List Pool).map Pool.address ++
        ([] : List Pool).map Pool.address ++
        ([⟨5, false, ⟨2, 3⟩⟩] : List Pool).map Pool.address ∧
    ((([⟨5, false, ⟨2, 3⟩⟩] ++ [] ++ [⟨5, false, ⟨2, 3⟩⟩] : List Pool)).map enrichPool).length =
      ([⟨5, false, ⟨2, 3⟩⟩] : List Pool).length + ([] : List Pool).length +
        ([⟨5, false, ⟨2, 3⟩⟩] : List Pool).length :=
  discovery_concat_no_dedup [⟨5, false, ⟨2, 3⟩⟩] [] [⟨5, false, ⟨2, 3⟩⟩] (by decide)

/-! ### C4: degenerate pools are fatal, not filtered -/

/-- **C4 counterexample.** A degenerate pool (zero base reserve) among the
candidates makes the whole discovery fail with the `'Invalid pool reserves'`
error: the other, perfectly healthy candidate is *not* returned, contradicting
the claim that degenerate pools are filtered out without failing the
discovery. -/
theorem degenerate_not_filtered_counterexample :
    getPoolsWithPrices (.ok [⟨7, false, ⟨0, 5⟩⟩, ⟨8, false, ⟨2, 3⟩⟩]) (.ok []) (.ok []) =
      .error "Invalid pool reserves" := by rfl

/-- **C4 (amended).** A pool record with `baseReserve = 0` or
`quoteReserve = 0` never appears in a *successful* `getPoolsWithPrices`
output; however its presence among the candidates is fatal to the whole
discovery — the call errors and the other candidates are not returned. -/
theorem degenerate_pool_fatal :
    (∀ r1 r2 r3 l, getPoolsWithPrices r1 r2 r3 = .ok l →
      ∀ q ∈ l, q.poolData.baseReserve ≠ 0 ∧ q.poolData.quoteReserve ≠ 0) ∧
    (∀ l1 l2 l3 : List Pool,
      (∃ p ∈ l1 ++ l2 ++ l3, p.poolData.baseReserve = 0 ∨ p.poolData.quoteReserve = 0) →
      ∃ e, getPoolsWithPrices (.ok l1) (.ok l2) (.ok l3) = .error e) := by
  constructor
  · intro r1 r2 r3 l h q hq
    obtain ⟨l1, l2, l3, out, -, -, -, hmap, hfil⟩ := getPoolsWithPrices_ok_inv h
    rw [hfil] at hq
    have hqout := List.mem_of_mem_filter hq
    obtain ⟨p, -, hpok⟩ := mapPricing_ok_members _ _ hmap q hqout
    obtain ⟨hnd, rfl⟩ := getPriceAndLiquidity_ok_inv hpok
    push_neg at hnd
    exact hnd
  · intro l1 l2 l3 hdeg
    obtain ⟨e, he⟩ := mapPricing_error_of_degenerate _ hdeg
    exact ⟨e, by rw [getPoolsWithPrices_def, he]; rfl⟩

/-- Witness for `degenerate_pool_fatal`: a healthy singleton discovery result
contains no degenerate pool, and a degenerate singleton candidate list makes
discovery error. -/
theorem degenerate_pool_fatal_witness :
    ((enrichPool ⟨8, false, ⟨2, 3⟩⟩).poolData.baseReserve ≠ 0 ∧
      (enrichPool ⟨8, false, ⟨2, 3⟩⟩).poolData.quoteReserve ≠ 0) ∧
    ∃ e, getPoolsWithPrices (.ok [⟨7, false, ⟨0, 5⟩⟩]) (.ok []) (.ok []) = .error e := by
  have h := degenerate_pool_fatal
  have hok : getPoolsWithPrices (.ok [⟨8, false, ⟨2, 3⟩⟩]) (.ok []) (.ok []) =
      .ok ((([⟨8, false, ⟨2, 3⟩⟩] ++ [] ++ [] : List Pool)).map enrichPool) :=
    getPoolsWithPrices_of_valid _ _ _ (by decide)
  refine ⟨h.1 (.ok [⟨8, false, ⟨2, 3⟩⟩]) (.ok []) (.ok []) _ hok
    (enrichPool ⟨8, false, ⟨2, 3⟩⟩) (by simp), ?_⟩
  exact h.2 [⟨7, false, ⟨0, 5⟩⟩] [] []
    ⟨⟨7, false, ⟨0, 5⟩⟩, by simp, Or.inl rfl⟩

/-! ### C5: the price is a raw-unit ratio, not a normalized one -/

/-- **C5 counterexample.** For the pool with raw reserves
`baseReserve = quoteReserve = 1`, the code attaches price `1` (the ratio of the
*raw* integer amounts), while the claimed normalized price is `1/1000`: the
attached price is not the normalized quote-per-base figure. -/
theorem price_normalization_counterexample :
    (getPriceAndLiquidity ⟨9, false, ⟨1, 1⟩⟩).map (fun q => q.price) = .ok 1 ∧
    specNormalizedPrice ⟨9, false, ⟨1, 1⟩⟩ = 1 / 1000 ∧
    (1 : ℚ) ≠ 1 / 1000 := by
  refine ⟨?_, ?_, by norm_num⟩
  · have h : getPriceAndLiquidity ⟨9, false, ⟨1, 1⟩⟩ = .ok (enrichPool ⟨9, false, ⟨1, 1⟩⟩) := by
      unfold getPriceAndLiquidity
      rw [if_neg (by norm_num)]
    rw [h]
    exact congrArg Except.ok (by norm_num [enrichPool])
  · norm_num [specNormalizedPrice, LAMPORTS_PER_SOL, DECIMALS]

/-- **C5 (amended).** For every pool with strictly positive reserves,
`getPriceAndLiquidity` succeeds and attaches `price = quoteReserve /
baseReserve` as a ratio of the **raw integer amounts** (no unit conversion);
only the `reserves` fields are normalized (`native` by `LAMPORTS_PER_SOL`,
`token` by `10^DECIMALS`).  The attached price is therefore `1000` times the
normalized quote-per-base price the claim describes. -/
theorem price_raw_ratio (pool : Pool) (hb : 0 < pool.poolData.baseReserve)
    (hq : 0 < pool.poolData.quoteReserve) :
    getPriceAndLiquidity pool = .ok (enrichPool pool) ∧
    (enrichPool pool).price =
      (pool.poolData.quoteReserve : ℚ) / (pool.poolData.baseReserve : ℚ) ∧
    (enrichPool pool).reserves.native =
      (pool.poolData.quoteReserve : ℚ) / (LAMPORTS_PER_SOL : ℚ) ∧
    (enrichPool pool).reserves.token =
      (pool.poolData.baseReserve : ℚ) / ((10 : ℚ) ^ DECIMALS) ∧
    (enrichPool pool).price = 1000 * specNormalizedPrice pool := by
  refine ⟨?_, rfl, rfl, rfl, ?_⟩
  · unfold getPriceAndLiquidity
    rw [if_neg (by push_neg; exact ⟨hb.ne', hq.ne'⟩)]
  · have hb' : ((pool.poolData.baseReserve : ℚ)) ≠ 0 := by
      exact_mod_cast hb.ne'
    unfold enrichPool specNormalizedPrice LAMPORTS_PER_SOL DECIMALS
    field_simp
    ring

/-- Witness for `price_raw_ratio` at raw reserves `(2, 3)`. -/
theorem price_raw_ratio_witness :
    getPriceAndLiquidity ⟨9, false, ⟨2, 3⟩⟩ = .ok (enrichPool ⟨9, false, ⟨2, 3⟩⟩) ∧
    (enrichPool ⟨9, false, ⟨2, 3⟩⟩).price = ((3 : ℤ) : ℚ) / ((2 : ℤ) : ℚ) ∧
    (enrichPool ⟨9, false, ⟨2, 3⟩⟩).reserves.native = ((3 : ℤ) : ℚ) / (LAMPORTS_PER_SOL : ℚ) ∧
    (enrichPool ⟨9, false, ⟨2, 3⟩⟩).reserves.token = ((2 : ℤ) : ℚ) / ((10 : ℚ) ^ DECIMALS) ∧
    (enrichPool ⟨9, false, ⟨2, 3⟩⟩).price = 1000 * specNormalizedPrice ⟨9, false, ⟨2, 3⟩⟩ :=
  price_raw_ratio ⟨9, false, ⟨2, 3⟩⟩ (by norm_num) (by norm_num)

/-! ### C7: the round trip can be profitable -/

/-- The buy quote never exceeds the base reserve: `B*Q/(Q+qin) ≤ B`. -/
theorem buy_floor_le (B Q qin : ℕ) (hQ : 0 < Q) : B * Q / (Q + qin) ≤ B := by
  calc B * Q / (Q + qin) ≤ B * Q / Q :=
        Nat.div_le_div_left (Nat.le_add_right Q qin) hQ
    _ = B := Nat.mul_div_cancel B hQ

/-- The sell quote never exceeds the quote reserve: `B*Q/(B+bin) ≤ Q`. -/
theorem sell_floor_le (B Q bin : ℕ) (hB : 0 < B) : B * Q / (B + bin) ≤ Q := by
  calc B * Q / (B + bin) ≤ B * Q / B :=
        Nat.div_le_div_left (Nat.le_add_right B bin) hB
    _ = Q := by rw [Nat.mul_comm]; exact Nat.mul_div_cancel Q hB

/-- **C7 counterexample.** At reserves `(B, Q) = (2, 10)` and `quoteIn = 1`,
the buy quote is `1` base unit, and selling that `1` unit back against the
same original reserves quotes `4` quote units: the round trip yields
`quoteOut = 4 > 1 = quoteIn`, so the claimed `quoteOut ≤ quoteIn` bound is
false (both quote legs round in the trader's favor, not the pool's). -/
theorem roundtrip_profitable_counterexample :
    calculateBuyTokenAmount 2 10 1 = 1 ∧
    calculateSellSolAmount 2 10 (calculateBuyTokenAmount 2 10 1) = 4 ∧
    ¬(calculateSellSolAmount 2 10 (calculateBuyTokenAmount 2 10 1) ≤ 1) := by
  decide

/-- **C7 (amended).** Quoting a buy of `quoteIn` and then quoting a sell of
the resulting `baseOut` against the same original reserves does **not**
always satisfy `quoteOut ≤ quoteIn`.  Precisely: the buy quote equals
`baseOut = B - B*Q/(Q+quoteIn)` and the round trip satisfies `quoteOut ≤
quoteIn` if and only if `Q * baseOut ≤ quoteIn * (B + baseOut)`; this
condition can fail (see the counterexample), because truncating division
rounds both quotes up in the trader's favor. -/
theorem roundtrip_characterization (B Q qin : ℕ) (hB : 0 < B) (hQ : 0 < Q) :
    calculateBuyTokenAmount (B : ℤ) (Q : ℤ) (qin : ℤ) =
      ((B - B * Q / (Q + qin) : ℕ) : ℤ) ∧
    (calculateSellSolAmount (B : ℤ) (Q : ℤ) ((B - B * Q / (Q + qin) : ℕ) : ℤ) ≤
        ((qin : ℕ) : ℤ) ↔
      Q * (B - B * Q / (Q + qin)) ≤ qin * (B + (B - B * Q / (Q + qin)))) := by
  have hn : B * Q / (Q + qin) ≤ B := buy_floor_le B Q qin hQ
  constructor
  · rw [calculateBuyTokenAmount_natCast, Nat.cast_sub hn]
  · set b := B - B * Q / (Q + qin) with hb
    rw [calculateSellSolAmount_natCast]
    set m := B * Q / (B + b) with hm
    have hBb : 0 < B + b := Nat.lt_of_lt_of_le hB (Nat.le_add_right B b)
    have hchain : (Q - qin ≤ m) ↔ (Q * b ≤ qin * (B + b)) := by
      rw [hm, Nat.le_div_iff_mul_le hBb, Nat.sub_mul, Nat.sub_le_iff_le_add, Nat.mul_add,
        Nat.mul_comm Q B, Nat.add_le_add_iff_left]
    rw [← hchain, sub_le_iff_le_add, Nat.sub_le_iff_le_add]
    clear_value b m
    omega

/-- Witness for `roundtrip_characterization` at `(B, Q, quoteIn) = (2, 10, 1)`
— the instance at which the round-trip bound fails. -/
theorem roundtrip_characterization_witness :
    calculateBuyTokenAmount ((2 : ℕ) : ℤ) ((10 : ℕ) : ℤ) ((1 : ℕ) : ℤ) =
      ((2 - 2 * 10 / (10 + 1) : ℕ) : ℤ) ∧
    (calculateSellSolAmount ((2 : ℕ) : ℤ) ((10 : ℕ) : ℤ) ((2 - 2 * 10 / (10 + 1) : ℕ) : ℤ) ≤
        ((1 : ℕ) : ℤ) ↔
      10 * (2 - 2 * 10 / (10 + 1)) ≤ 1 * (2 + (2 - 2 * 10 / (10 + 1)))) :=
  roundtrip_characterization 2 10 1 (by norm_num) (by norm_num)

/-! ### C8: no reserve-exhaustion error exists -/

/-- **C8 counterexample.** At reserves `(B, Q) = (2, 3)` with
`quoteAmountIn = 10`, the implied new base reserve `k / newQuoteReserve =
6 / 13` is zero — the reserve-exhaustion condition the claim says must fail
with a distinct error — yet `calculateBuyTokenAmount` raises nothing and
returns the quote `2` (the entire base reserve). -/
theorem reserve_exhaustion_counterexample :
    Int.tdiv ((2 : ℤ) * 3) (3 + 10) = 0 ∧
    calculateBuyTokenAmount 2 3 10 = 2 := by
  decide

/-- **C8 (amended).** The quote functions contain no reserve-exhaustion check:
they are total and return a quote for every non-negative input, even when the
implied new reserve is zero; what does hold is that the returned quote never
exceeds the corresponding available reserve (`0 ≤ buy ≤ baseReserve`,
`0 ≤ sell ≤ quoteReserve`) for positive reserves. -/
theorem quotes_total_bounded (B Q qin bin : ℕ) (hB : 0 < B) (hQ : 0 < Q) :
    0 ≤ calculateBuyTokenAmount (B : ℤ) (Q : ℤ) (qin : ℤ) ∧
    calculateBuyTokenAmount (B : ℤ) (Q : ℤ) (qin : ℤ) ≤ (B : ℤ) ∧
    0 ≤ calculateSellSolAmount (B : ℤ) (Q : ℤ) (bin : ℤ) ∧
    calculateSellSolAmount (B : ℤ) (Q : ℤ) (bin : ℤ) ≤ (Q : ℤ) := by
  have hn1 : B * Q / (Q + qin) ≤ B := buy_floor_le B Q qin hQ
  have hn2 : B * Q / (B + bin) ≤ Q := sell_floor_le B Q bin hB
  rw [calculateBuyTokenAmount_natCast, calculateSellSolAmount_natCast]
  set n1 := B * Q / (Q + qin)
  set n2 := B * Q / (B + bin)
  clear_value n1 n2
  omega

/-- Witness for `quotes_total_bounded` at `(B, Q) = (2, 3)`, inputs `10`
(which exhausts the base reserve) and `1`. -/
theorem quotes_total_bounded_witness :
    0 ≤ calculateBuyTokenAmount ((2 : ℕ) : ℤ) ((3 : ℕ) : ℤ) ((10 : ℕ) : ℤ) ∧
    calculateBuyTokenAmount ((2 : ℕ) : ℤ) ((3 : ℕ) : ℤ) ((10 : ℕ) : ℤ) ≤ ((2 : ℕ) : ℤ) ∧
    0 ≤ calculateSellSolAmount ((2 : ℕ) : ℤ) ((3 : ℕ) : ℤ) ((1 : ℕ) : ℤ) ∧
    calculateSellSolAmount ((2 : ℕ) : ℤ) ((3 : ℕ) : ℤ) ((1 : ℕ) : ℤ) ≤ ((3 : ℕ) : ℤ) :=
  quotes_total_bounded 2 3 10 1 (by norm_num) (by norm_num)

/-! ### C10: a non-null price is strictly positive -/

/-- **C10.** `getPrice` returns `null` exactly when `getBestPool` returns
`null`: every pool surviving discovery has a strictly positive price, so the
best pool (when it exists) does too, `getPrice` then returns exactly that
price, and a non-null `getPrice` result is strictly positive.  Separately,
the falsy-coalescing `|| null` would also map a hypothetical zero-price best
pool to `null`. -/
theorem getPrice_null_iff_no_pool :
    (∀ r1 r2 r3 res, getBestPool r1 r2 r3 = .ok res →
      getPrice r1 r2 r3 = .ok (coalescePrice res) ∧
      (getPrice r1 r2 r3 = .ok none ↔ res = none) ∧
      (∀ p, res = some p → 0 < p.price ∧ getPrice r1 r2 r3 = .ok (some p.price))) ∧
    (∀ p : PoolWithPrice, p.price = 0 → coalescePrice (some p) = none) := by
  constructor
  · intro r1 r2 r3 res hres
    have hprice : getPrice r1 r2 r3 = .ok (coalescePrice res) := by
      show Except.map coalescePrice (getBestPool r1 r2 r3) = _
      rw [hres]
      rfl
    have hpos : ∀ p, res = some p → 0 < p.price := by
      intro p hp
      cases hg : getPoolsWithPrices r1 r2 r3 with
      | error e =>
        have hbe : getBestPool r1 r2 r3 = .error e := by
          show Except.map bestPoolOf (getPoolsWithPrices r1 r2 r3) = _
          rw [hg]
          rfl
        rw [hbe] at hres
        exact absurd hres (by simp)
      | ok l =>
        have hbok : getBestPool r1 r2 r3 = .ok (bestPoolOf l) := by
          show Except.map bestPoolOf (getPoolsWithPrices r1 r2 r3) = _
          rw [hg]
          rfl
        rw [hbok] at hres
        have hbp : bestPoolOf l = some p := (Except.ok.inj hres).trans hp
        exact getPoolsWithPrices_ok_price_pos hg p (bestPoolOf_mem hbp)
    refine ⟨hprice, ?_, ?_⟩
    · constructor
      · intro hnone
        cases res with
        | none => rfl
        | some p =>
          have h0 := hpos p rfl
          have hco : coalescePrice (some p) = none :=
            Except.ok.inj (hprice.symm.trans hnone)
          simp only [coalescePrice] at hco
          rw [if_neg h0.ne'] at hco
          exact absurd hco (by simp)
      · intro hnone
        rw [hnone] at hprice
        exact hprice
    · intro p hp
      have h0 := hpos p hp
      refine ⟨h0, ?_⟩
      rw [hp] at hprice
      rw [hprice]
      show Except.ok (coalescePrice (some p)) = _
      simp only [coalescePrice]
      rw [if_neg h0.ne']
  · intro p hp
    simp only [coalescePrice]
    rw [if_pos hp]

/-- Witness for `getPrice_null_iff_no_pool`: a single healthy pool with raw
reserves `(2, 3)` yields a best pool whose strictly positive price `getPrice`
reports; a zero-price pool is coalesced to `null`. -/
theorem getPrice_null_iff_no_pool_witness :
    (getPrice (.ok [⟨8, false, ⟨2, 3⟩⟩]) (.ok []) (.ok []) =
        .ok (coalescePrice (some (enrichPool ⟨8, false, ⟨2, 3⟩⟩))) ∧
      (getPrice (.ok [⟨8, false, ⟨2, 3⟩⟩]) (.ok []) (.ok []) = .ok none ↔
        (some (enrichPool ⟨8, false, ⟨2, 3⟩⟩) : Option PoolWithPrice) = none) ∧
      (∀ p, (some (enrichPool ⟨8, false, ⟨2, 3⟩⟩) : Option PoolWithPrice) = some p →
        0 < p.price ∧
        getPrice (.ok [⟨8, false, ⟨2, 3⟩⟩]) (.ok []) (.ok []) = .ok (some p.price))) ∧
    coalescePrice (some ⟨1, false, ⟨1, 1⟩, 0, ⟨0, 0⟩⟩) = none := by
  have h := getPrice_null_iff_no_pool
  have hg : getPoolsWithPrices (.ok [⟨8, false, ⟨2, 3⟩⟩]) (.ok []) (.ok []) =
      .ok ((([⟨8, false, ⟨2, 3⟩⟩] ++ [] ++ [] : List Pool)).map enrichPool) :=
    getPoolsWithPrices_of_valid _ _ _ (by decide)
  have hb : getBestPool (.ok [⟨8, false, ⟨2, 3⟩⟩]) (.ok []) (.ok []) =
      .ok (some (enrichPool ⟨8, false, ⟨2, 3⟩⟩)) := by
    show Except.map bestPoolOf (getPoolsWithPrices (.ok [⟨8, false, ⟨2, 3⟩⟩]) (.ok []) (.ok [])) = _
    rw [hg]
    rfl
  exact ⟨h.1 _ _ _ _ hb, h.2 ⟨1, false, ⟨1, 1⟩, 0, ⟨0, 0⟩⟩ rfl⟩

end PumpSwap
